import Mathlib

/-!
# Verification of the cci_tagger facet-resolution and identifier engine

Shallow embedding of the core of `cci_tagger` (tagger.py, mappings.py) in
Lean 4, together with theorems settling the frozen claims about it.

Modelling conventions:
* Python strings are Lean `String`s; the Python string operations used by the
  code (`split`, `replace`, `startswith`, `strip`, `lower`) are re-implemented
  below on `List Char` with Python's semantics (left-to-right, non-overlapping
  matches) rather than via Lean's built-in substring machinery, so that proofs
  can proceed by structural induction.
* Python `set`s of strings are `Finset String` (unordered, deduplicated);
  where the code *iterates* over a set and the iteration order is observable
  (the DRS mapping's per-dataset identifier sets), the set is modelled as a
  `List` in insertion (file) order, and this choice is noted at the def.
* Fallible operations (`list[i]` raising `IndexError`, `list.remove` raising
  `ValueError`) are modelled with `Option`/`Except`.
* The vocabulary service (`facets.py` / `triple_store.py` backends, which are
  external or absent from the sources) is an abstract record of lookup
  functions; the local mapping tables of `mappings.py` are embedded concretely.
-/

namespace CciTagger

/-! ## Python string primitives -/

/-- Python `s.startswith(pre)` on the character lists of the two strings. -/
def pyStartsWith (pre s : String) : Bool :=
  pre.data.isPrefixOf s.data

/-- Python `str.lower()` (ASCII-adequate: the code only lowers ASCII data). -/
def pyLower (s : String) : String :=
  ⟨s.data.map Char.toLower⟩

/-- Python whitespace characters, as stripped by `str.strip()`. -/
def pyIsSpace (c : Char) : Bool :=
  c = ' ' || c = '\t' || c = '\n' || c = '\x0d' || c = '\x0b' || c = '\x0c'

/-- Python `str.strip()`: drop whitespace from both ends. -/
def pyStrip (s : String) : String :=
  ⟨((s.data.dropWhile pyIsSpace).reverse.dropWhile pyIsSpace).reverse⟩

/-- Fueled core of Python `str.replace`: replace non-overlapping occurrences
of `old` left to right.  The fuel (instantiated to the input length, which
always suffices) keeps the recursion structural so that terms reduce in the
kernel. -/
def replaceF (old new : List Char) : Nat → List Char → List Char
  | _, [] => []
  | 0, l => l
  | fuel + 1, c :: rest =>
    if old ≠ [] ∧ old.isPrefixOf (c :: rest) then
      new ++ replaceF old new fuel (rest.drop (old.length - 1))
    else
      c :: replaceF old new fuel rest

/-- Python `str.replace(old, new)` on character lists (`old ≠ ""` at every
call site, as in Python where an empty pattern behaves differently). -/
def replaceL (old new l : List Char) : List Char :=
  replaceF old new l.length l

/-- Python `s.replace(old, new)`. -/
def pyReplace (s old new : String) : String :=
  ⟨replaceL old.data new.data s.data⟩

/-- Fueled core of Python `str.split(sep)` for non-empty `sep`: split at
non-overlapping occurrences of `sep`, left to right. -/
def splitF (sep : List Char) : Nat → List Char → List (List Char)
  | _, [] => [[]]
  | 0, l => [l]
  | fuel + 1, c :: rest =>
    if sep ≠ [] ∧ sep.isPrefixOf (c :: rest) then
      [] :: splitF sep fuel (rest.drop (sep.length - 1))
    else
      match splitF sep fuel rest with
      | [] => [[c]]
      | h :: t => (c :: h) :: t

/-- Python `str.split(sep)` (non-empty `sep`) on character lists; `""`
splits to `[""]`. -/
def splitL (sep l : List Char) : List (List Char) :=
  splitF sep l.length l

/-- Python `s.split(sep)` for a non-empty separator string. -/
def pySplit (sep s : String) : List String :=
  (splitL sep.data s.data).map (⟨·⟩)

/-! ### Fuel adequacy: with fuel at least the input length, the fueled
primitives are fuel-independent, giving clean unfolding equations. -/

theorem replaceF_fuel (old new : List Char) :
    ∀ fuel l, l.length ≤ fuel → replaceF old new fuel l = replaceL old new l := by
  intro fuel
  induction fuel using Nat.strong_induction_on with
  | _ fuel ih =>
    intro l hl
    cases l with
    | nil => cases fuel <;> rfl
    | cons c rest =>
      cases fuel with
      | zero => simp at hl
      | succ n =>
        have hr : rest.length ≤ n := by simpa using hl
        show _ = replaceF old new (rest.length + 1) (c :: rest)
        simp only [replaceF]
        split
        · have hd : (rest.drop (old.length - 1)).length ≤ rest.length := by
            simp [List.length_drop]
          rw [ih n (Nat.lt_succ_self n) _ (le_trans hd hr),
            ih rest.length (Nat.lt_succ_of_le hr) _ hd]
        · rw [ih n (Nat.lt_succ_self n) rest hr,
            ih rest.length (Nat.lt_succ_of_le hr) rest (le_refl _)]

theorem splitF_fuel (sep : List Char) :
    ∀ fuel l, l.length ≤ fuel → splitF sep fuel l = splitL sep l := by
  intro fuel
  induction fuel using Nat.strong_induction_on with
  | _ fuel ih =>
    intro l hl
    cases l with
    | nil => cases fuel <;> rfl
    | cons c rest =>
      cases fuel with
      | zero => simp at hl
      | succ n =>
        have hr : rest.length ≤ n := by simpa using hl
        show _ = splitF sep (rest.length + 1) (c :: rest)
        simp only [splitF]
        split
        · have hd : (rest.drop (sep.length - 1)).length ≤ rest.length := by
            simp [List.length_drop]
          rw [ih n (Nat.lt_succ_self n) _ (le_trans hd hr),
            ih rest.length (Nat.lt_succ_of_le hr) _ hd]
        · rw [ih n (Nat.lt_succ_self n) rest hr,
            ih rest.length (Nat.lt_succ_of_le hr) rest (le_refl _)]

/-- Unfolding equation: a match of the separator at the head of the input
starts a new piece (single-character separator form). -/
theorem splitL_cons_match (c : Char) (rest : List Char) :
    splitL [c] (c :: rest) = [] :: splitL [c] rest := by
  show splitF [c] (rest.length + 1) (c :: rest) = _
  simp only [splitF]
  rw [if_pos]
  · simp [splitF_fuel]
  · simp [List.isPrefixOf]

/-- Unfolding equation: a non-separator head char joins the first piece. -/
theorem splitL_cons_nomatch {c d : Char} (hne : d ≠ c) (rest : List Char) :
    splitL [c] (d :: rest) =
      match splitL [c] rest with
      | [] => [[d]]
      | h :: t => (d :: h) :: t := by
  show splitF [c] (rest.length + 1) (d :: rest) = _
  simp only [splitF]
  rw [if_neg]
  · rw [splitF_fuel _ _ _ (le_refl _)]
  · intro hcond
    have hc : c = d := by simpa [List.isPrefixOf] using hcond.2
    exact hne hc.symm

/-- A list not containing the separator character is a single piece. -/
theorem splitL_single {c : Char} {a : List Char} (h : c ∉ a) :
    splitL [c] a = [a] := by
  induction a with
  | nil => rfl
  | cons d a ih =>
    have hd : d ≠ c := fun e => h (e ▸ List.mem_cons_self d a)
    rw [splitL_cons_nomatch hd, ih (fun m => h (List.mem_cons_of_mem d m))]

/-- Splitting off a leading separator-free piece. -/
theorem splitL_append {c : Char} {a : List Char} (h : c ∉ a) (b : List Char) :
    splitL [c] (a ++ c :: b) = a :: splitL [c] b := by
  induction a with
  | nil => exact splitL_cons_match c b
  | cons d a ih =>
    have hd : d ≠ c := fun e => h (e ▸ List.mem_cons_self d a)
    rw [List.cons_append, splitL_cons_nomatch hd,
      ih (fun m => h (List.mem_cons_of_mem d m))]

/-- Python `s.split(sep, 1)[1]`: the text after the first occurrence of a
single-character separator, or `none` (IndexError) when absent. -/
def pyAfterFirst (sep : Char) : List Char → Option (List Char)
  | [] => none
  | c :: rest => if c = sep then some rest else pyAfterFirst sep rest

/-- Python `list.remove(x)`: drop the first occurrence, or `none`
(ValueError) when absent. -/
def pyRemoveFirst [DecidableEq α] (x : α) : List α → Option (List α)
  | [] => none
  | a :: rest =>
    if a = x then some rest
    else (pyRemoveFirst x rest).map (a :: ·)

/-- Lexicographic less-or-equal on code points (Python's string order). -/
def strLeb : List Char → List Char → Bool
  | [], _ => true
  | _ :: _, [] => false
  | a :: as, b :: bs =>
    if a.toNat < b.toNat then true
    else if b.toNat < a.toNat then false
    else strLeb as bs

/-- Python string comparison `s <= t` (code-point lexicographic). -/
def pyLe (s t : String) : Bool :=
  strLeb s.data t.data

/-- Ascending insertion into a sorted list of strings. -/
def insertSorted (x : String) : List String → List String
  | [] => [x]
  | a :: rest => if pyLe x a then x :: a :: rest else a :: insertSorted x rest

/-- Python `sorted` on strings (insertion sort; ascending). -/
def pySorted (l : List String) : List String :=
  l.foldr insertSorted []

/-! ## Facet-name constants

Modelled from the spec: `constants.py` is not among the sources; the spec
fixes the facet categories (§3) and the code compares these constants against
lower-cased netCDF attribute names, so they are modelled as distinct
lower-case tokens. -/

def DATA_TYPE : String := "data_type"

def FREQUENCY : String := "frequency"

def INSTITUTION : String := "institution"

def PLATFORM : String := "platform"

def SENSOR : String := "sensor"

def ECV : String := "ecv"

def PLATFORM_PROGRAMME : String := "platform_programme"

def PLATFORM_GROUP : String := "platform_group"

def PROCESSING_LEVEL : String := "processing_level"

def PRODUCT_STRING : String := "product_string"

def PRODUCT_VERSION : String := "product_version"

/-- `ProcessDatasets.ESACCI`: the fixed project marker in file names. -/
def ESACCI : String := "ESACCI"

/-- `ProcessDatasets.DRS_ESACCI`: the fixed DRS identifier prefix. -/
def DRS_ESACCI : String := "esacci"

/-- `ProcessDatasets.MULTI_SENSOR` sentinel label. -/
def MULTI_SENSOR : String := "multi-sensor"

/-- `ProcessDatasets.MULTI_PLATFORM` sentinel label. -/
def MULTI_PLATFORM : String := "multi-platform"

/-! ## Local facet mappings (`mappings.py`, `LocalFacetMappings`) -/

/-- `LocalFacetMappings.__freq`. -/
def freqMapping : List (String × String) :=
  [("daily", "day")]

/-- `LocalFacetMappings.__institute`. -/
def instituteMapping : List (String × String) :=
  [("DTU Space - Div. of Geodynamics", "DTU Space"),
   ("DTU Space - Div. of Geodynamics and NERSC", "DTU Space"),
   ("DTU Space - Microwaves and Remote Sensing", "DTU Space"),
   ("Deutsches Zentrum fuer Luft- und Raumfahrt (DLR)",
    "Deutsches Zentrum fuer Luft- und Raumfahrt"),
   ("ESACCI", "ESACCI_SST"),
   ("Plymouth Marine Laboratory Remote Sensing Group",
    "Plymouth Marine Laboratory"),
   ("Royal Netherlands Meteorological Institute (KNMI)",
    "Royal Netherlands Meteorological Institute"),
   ("SRON Netherlands Institute for Space Research",
    "Netherlands Institute for Space Research"),
   ("University of Leicester (UoL)", "University of Leicester")]

/-- `LocalFacetMappings.__level`. -/
def levelMapping : List (String × String) :=
  [("level-3", "l3")]

/-- `LocalFacetMappings.__platform`. -/
def platformMapping : List (String × String) :=
  [("ERS2", "ERS-2"),
   ("ENV", "ENVISAT"),
   ("EOS-AURA", "AURA"),
   ("MetOpA", "Metop-A"),
   ("Nimbus 7", "Nimbus-7"),
   ("orbview-2/seastar", "orbview-2"),
   ("SCISAT", "SCISAT-1")]

/-- `LocalFacetMappings.__sensor`. -/
def sensorMapping : List (String × String) :=
  [("AMSR-E", "AMSRE"),
   ("ATSR2", "ATSR-2"),
   ("AVHRR GAC", "AVHRR"),
   ("AVHRR_GAC", "AVHRR"),
   ("AVHRR_HRPT", "AVHRR"),
   ("AVHRR_LAC", "AVHRR"),
   ("AVHRR_MERGED", "AVHRR"),
   ("GFO", "GFO-RA"),
   ("MERIS_FRS", "MERIS"),
   ("MERIS_RR", "MERIS"),
   ("MODIS_MERGED", "MODIS"),
   ("RA2", "RA-2"),
   ("SMR_544.6GHz", "SMR")]

/-- `LocalFacetMappings.get_mapping(facet)`: the per-facet table, empty for
an unknown facet. -/
def localMapping (facet : String) : List (String × String) :=
  if facet = FREQUENCY then freqMapping
  else if facet = INSTITUTION then instituteMapping
  else if facet = PROCESSING_LEVEL then levelMapping
  else if facet = PLATFORM then platformMapping
  else if facet = SENSOR then sensorMapping
  else []

/-! ## Errors raised by the Python runtime -/

/-- Python runtime errors the modelled code can raise: `IndexError`
(`list[i]` out of range), `ValueError` (`list.remove` miss).  `fuel` marks
exhaustion of the explicit fuel that models the unbounded `while True`
realization loop (proved unreachable below). -/
inductive PyErr where
  | index : PyErr
  | value : PyErr
  | fuel : PyErr
deriving DecidableEq

instance {ε α : Type} [DecidableEq ε] [DecidableEq α] :
    DecidableEq (Except ε α) := fun a b =>
  match a, b with
  | .ok x, .ok y =>
    if h : x = y then .isTrue (by rw [h]) else .isFalse (by simp [h])
  | .error x, .error y =>
    if h : x = y then .isTrue (by rw [h]) else .isFalse (by simp [h])
  | .ok _, .error _ => .isFalse (by simp)
  | .error _, .ok _ => .isFalse (by simp)

/-! ## Filename parsing (`ProcessDatasets._parse_file_name` and helpers)

`_parse_file_name` splits the last path segment on `-`, dispatches on the
two grammars, and records an invalid-file-name diagnostic (at most once per
dataset) otherwise.  The vocabulary resolution it then performs
(`_process_form`) consumes these raw values downstream and is modelled
separately; here we model the raw facet extraction and the diagnostics. -/

/-- Raw facet values extracted from a file name. -/
structure FormData where
  processing_level : String
  ecv : String
  data_type : String
  product_string : String
deriving DecidableEq

/-- `ProcessDatasets._get_data_from_file_name_1` (Grammar A):
`segment[2]` splits on `_` into processing level and project; raises
`IndexError` when there is no `_` part at index 1. -/
def get_data_from_file_name_1 (segs : List String) : Except PyErr FormData :=
  match (pySplit "_" (segs.getD 2 "")).get? 1 with
  | none => .error .index
  | some p =>
    .ok ⟨(pySplit "_" (segs.getD 2 "")).getD 0 "", p,
         segs.getD 3 "", segs.getD 4 ""⟩

/-- `ProcessDatasets._get_data_from_file_name_2` (Grammar B). -/
def get_data_from_file_name_2 (segs : List String) : Except PyErr FormData :=
  .ok ⟨segs.getD 2 "", segs.getD 1 "", segs.getD 3 "", segs.getD 4 ""⟩

/-- The prefix used to deduplicate invalid-file-name diagnostics per
dataset (`'ERROR in %s, invalid file name format' % ds`). -/
def invalidFilenamePrefix (ds : String) : String :=
  "ERROR in " ++ ds ++ ", invalid file name format"

/-- Record an invalid-file-name diagnostic unless one with this dataset's
prefix is already present (tagger.py lines 288–298 and 308–318). -/
def addInvalidFilename (ds name : String) (E : Finset String) : Finset String :=
  if ∃ m ∈ E, pyStartsWith (invalidFilenamePrefix ds) m then E
  else insert (invalidFilenamePrefix ds ++ " \"" ++ name ++ "\"") E

/-- `ProcessDatasets._parse_file_name`, up to the raw facet values: split the
path on `/`, take the last segment, split on `-`; fewer than 5 segments or
neither grammar marker gives no form plus an invalid-file-name diagnostic;
otherwise dispatch Grammar A (`segment[1] = ESACCI`) before Grammar B
(`segment[0] = ESACCI`). -/
def parse_file_name (ds fpath : String) (E : Finset String) :
    Except PyErr (Option FormData) × Finset String :=
  let lastBit := (pySplit "/" fpath).getLastD ""
  let segs := pySplit "-" lastBit
  if segs.length < 5 then (.ok none, addInvalidFilename ds lastBit E)
  else if segs.getD 1 "" = ESACCI then
    ((get_data_from_file_name_1 segs).map some, E)
  else if segs.getD 0 "" = ESACCI then
    ((get_data_from_file_name_2 segs).map some, E)
  else (.ok none, addInvalidFilename ds lastBit E)

/-! ### Basic lemmas about the diagnostic set -/

theorem pyStartsWith_append (pre x : String) :
    pyStartsWith pre (pre ++ x) = true := by
  simp only [pyStartsWith, String.data_append]
  exact List.isPrefixOf_iff_prefix.mpr (List.prefix_append _ _)

theorem addInvalidFilename_mem (ds name : String) (E : Finset String) :
    ∃ m ∈ addInvalidFilename ds name E,
      pyStartsWith (invalidFilenamePrefix ds) m = true := by
  unfold addInvalidFilename
  split
  · assumption
  · refine ⟨invalidFilenamePrefix ds ++ " \"" ++ name ++ "\"",
      Finset.mem_insert_self _ _, ?_⟩
    have : invalidFilenamePrefix ds ++ " \"" ++ name ++ "\"" =
        invalidFilenamePrefix ds ++ (" \"" ++ name ++ "\"") := by
      simp [String.append_assoc]
    rw [this]
    exact pyStartsWith_append _ _

theorem addInvalidFilename_found (ds name : String) (E : Finset String)
    (h : ∃ m ∈ E, pyStartsWith (invalidFilenamePrefix ds) m = true) :
    addInvalidFilename ds name E = E := by
  unfold addInvalidFilename
  rw [if_pos]
  exact_mod_cast h

theorem except_map_some_ne_ok_none {ε α : Type} (e : Except ε α) :
    Except.map some e ≠ .ok (none : Option α) := by
  cases e <;> simp [Except.map]

/-- An invalid-format outcome means the diagnostic branch ran. -/
theorem parse_file_name_invalid (ds fpath : String) (E : Finset String)
    (h : (parse_file_name ds fpath E).1 = .ok none) :
    (parse_file_name ds fpath E).2 =
      addInvalidFilename ds ((pySplit "/" fpath).getLastD "") E := by
  unfold parse_file_name at h ⊢
  dsimp only at h ⊢
  split at h
  case isTrue hc => rw [if_pos hc]
  case isFalse hc =>
    split at h
    case isTrue hc2 =>
      exact (except_map_some_ne_ok_none (get_data_from_file_name_1 _)
        (by exact h)).elim
    case isFalse hc2 =>
      split at h
      case isTrue hc3 =>
        exact (except_map_some_ne_ok_none (get_data_from_file_name_2 _)
          (by exact h)).elim
      case isFalse hc3 => rw [if_neg hc, if_neg hc2, if_neg hc3]

/-! ### Claims C5 and C9 -/

/-- C5: for a filename whose final hyphen-split segment list has at least 5
segments, if `segment[1] = ESACCI` then Grammar A applies, yielding
processing level and project from splitting `segment[2]` on `_` (indices 0
and 1, the latter required to exist), data type from `segment[3]` and
product string from `segment[4]`; if instead `segment[0] = ESACCI`, Grammar
B applies, yielding project `segment[1]`, processing level `segment[2]`,
data type `segment[3]`, product string `segment[4]`. -/
theorem grammar_classification (ds fpath : String) (E : Finset String)
    (segs : List String)
    (hsegs : segs = pySplit "-" ((pySplit "/" fpath).getLastD ""))
    (hlen : 5 ≤ segs.length) :
    (segs.getD 1 "" = ESACCI →
      ∀ p, (pySplit "_" (segs.getD 2 "")).get? 1 = some p →
        parse_file_name ds fpath E =
          (.ok (some ⟨(pySplit "_" (segs.getD 2 "")).getD 0 "", p,
                      segs.getD 3 "", segs.getD 4 ""⟩), E)) ∧
    (segs.getD 1 "" ≠ ESACCI → segs.getD 0 "" = ESACCI →
      parse_file_name ds fpath E =
        (.ok (some ⟨segs.getD 2 "", segs.getD 1 "", segs.getD 3 "",
                    segs.getD 4 ""⟩), E)) := by
  subst hsegs
  unfold parse_file_name
  dsimp only
  constructor
  · intro h1 p hp
    rw [if_neg (by omega), if_pos h1]
    unfold get_data_from_file_name_1
    rw [hp]
    rfl
  · intro h1 h0
    rw [if_neg (by omega), if_neg h1, if_pos h0]
    rfl

/-- C5 witness: the two example filenames resolve through Grammar A and
Grammar B respectively, to the same four raw facet values. -/
theorem grammar_classification_witness :
    parse_file_name "d"
        "20100101-ESACCI-L3_SST-sea_surface_temperature-AVHRR-fv1.0.nc" ∅ =
      (.ok (some ⟨"L3", "SST", "sea_surface_temperature", "AVHRR"⟩), ∅) ∧
    parse_file_name "d"
        "ESACCI-SST-L3-sea_surface_temperature-AVHRR-fv1.0.nc" ∅ =
      (.ok (some ⟨"L3", "SST", "sea_surface_temperature", "AVHRR"⟩), ∅) := by
  constructor
  · have h := (grammar_classification "d"
      "20100101-ESACCI-L3_SST-sea_surface_temperature-AVHRR-fv1.0.nc" ∅
      _ rfl (by decide)).1 (by decide) "SST" (by decide)
    exact h.trans (by decide)
  · have h := (grammar_classification "d"
      "ESACCI-SST-L3-sea_surface_temperature-AVHRR-fv1.0.nc" ∅
      _ rfl (by decide)).2 (by decide) (by decide)
    exact h.trans (by decide)

/-- C9: a file whose name fails both grammars yields an invalid-file-name
diagnostic recorded at most once per dataset: after one invalid file has
been processed, processing a second invalid file for the same dataset
leaves the diagnostic set unchanged, even when the filename text differs. -/
theorem invalid_filename_dedup (ds f1 f2 : String) (E : Finset String)
    (h1 : (parse_file_name ds f1 E).1 = .ok none)
    (h2 : (parse_file_name ds f2 (parse_file_name ds f1 E).2).1 = .ok none) :
    (parse_file_name ds f2 (parse_file_name ds f1 E).2).2 =
      (parse_file_name ds f1 E).2 := by
  have e1 := parse_file_name_invalid ds f1 E h1
  have e2 := parse_file_name_invalid ds f2 _ h2
  rw [e2]
  apply addInvalidFilename_found
  rw [e1]
  exact addInvalidFilename_mem ds _ E

/-- C9 witness: two differently named invalid files (2 and 3 hyphen
segments) in one dataset produce exactly one diagnostic. -/
theorem invalid_filename_dedup_witness :
    (parse_file_name "d" "p/x-y.nc"
        (parse_file_name "d" "p/a-b-c.nc" ∅).2).2 =
      (parse_file_name "d" "p/a-b-c.nc" ∅).2 :=
  invalid_filename_dedup "d" "p/a-b-c.nc" "p/x-y.nc" ∅ (by decide) (by decide)

/-! ## Identifier building (`ProcessDatasets._generate_ds_id`)

The build iterates the fixed facet list; an absent (`KeyError`) or empty
facet value records a missing-value diagnostic (unless an invalid-value
diagnostic for the same dataset and facet is already present) and marks the
build failed; otherwise the value is normalized (`.` and space to `-`;
frequency additionally `month→mon`, `year→yr`) and appended to the stem.
The per-file resolved facet mapping `drs_ds` is modelled as a lookup
function `String → Option String` (`none` models `KeyError`). -/

/-- The fixed ordered facet list of `_generate_ds_id`. -/
def facetOrder : List String :=
  [ECV, FREQUENCY, PROCESSING_LEVEL, DATA_TYPE, SENSOR, PLATFORM,
   PRODUCT_STRING, PRODUCT_VERSION]

/-- The dedup-check prefix `'ERROR in %s for %s, invalid value'`. -/
def missingValuePrefix (ds facet : String) : String :=
  "ERROR in " ++ ds ++ " for " ++ facet ++ ", invalid value"

/-- The recorded message `'ERROR in %s for %s, value not found'`. -/
def valueNotFoundMsg (ds facet : String) : String :=
  "ERROR in " ++ ds ++ " for " ++ facet ++ ", value not found"

/-- Record a missing-facet diagnostic unless an invalid-value diagnostic for
this dataset and facet is already present (tagger.py lines 585–598 and
607–618; both the empty-value branch and the `KeyError` branch). -/
def addMissingFacet (ds facet : String) (E : Finset String) : Finset String :=
  if ∃ m ∈ E, pyStartsWith (missingValuePrefix ds facet) m then E
  else insert (valueNotFoundMsg ds facet) E

/-- Facet-value normalization inside `_generate_ds_id`: replace `.` and
space with `-`; for the frequency facet also `month→mon`, `year→yr`. -/
def normFacetValue (facet v : String) : String :=
  if facet = FREQUENCY then
    pyReplace (pyReplace (pyReplace (pyReplace v "." "-") " " "-")
      "month" "mon") "year" "yr"
  else pyReplace (pyReplace v "." "-") " " "-"

/-- One facet is missing when the lookup has no entry (`KeyError`) or the
entry is the empty string. -/
def facetMissing (lookup : String → Option String) (f : String) : Bool :=
  match lookup f with
  | none => true
  | some v => v = ""

/-- The loop of `_generate_ds_id` over the facet list, carrying the error
flag, the accumulated identifier and the error-message set. -/
def gen_ds_id_loop (ds : String) (lookup : String → Option String) :
    List String → Bool → String → Finset String →
      Bool × String × Finset String
  | [], err, acc, E => (err, acc, E)
  | f :: rest, err, acc, E =>
    match lookup f with
    | none => gen_ds_id_loop ds lookup rest true acc (addMissingFacet ds f E)
    | some v =>
      if v = "" then
        gen_ds_id_loop ds lookup rest true acc (addMissingFacet ds f E)
      else
        gen_ds_id_loop ds lookup rest err
          (acc ++ "." ++ normFacetValue f v) E

/-- `ProcessDatasets._generate_ds_id`: returns the identifier stem (prefix
`esacci` plus one dot-segment per facet) or `none` when any required facet
is absent or empty, together with the updated error-message set. -/
def generate_ds_id (ds : String) (lookup : String → Option String)
    (E : Finset String) : Option String × Finset String :=
  (if (gen_ds_id_loop ds lookup facetOrder false DRS_ESACCI E).1 then none
   else some (gen_ds_id_loop ds lookup facetOrder false DRS_ESACCI E).2.1,
   (gen_ds_id_loop ds lookup facetOrder false DRS_ESACCI E).2.2)

/-- The suffix of the stem contributed by a facet list (the appends that
the loop performs for the present facets). -/
def stemSuffix (lookup : String → Option String) : List String → String
  | [] => ""
  | f :: rest =>
    match lookup f with
    | none => stemSuffix lookup rest
    | some v =>
      if v = "" then stemSuffix lookup rest
      else "." ++ normFacetValue f v ++ stemSuffix lookup rest

/-- A missing-facet diagnostic for `(ds, f)` is present: either a message
with the invalid-value prefix or the value-not-found message. -/
def missingDiag (ds f : String) (E : Finset String) : Prop :=
  ∃ m ∈ E, pyStartsWith (missingValuePrefix ds f) m = true ∨
    m = valueNotFoundMsg ds f

theorem missingDiag_mono {ds f : String} {E E' : Finset String}
    (hsub : E ⊆ E') (h : missingDiag ds f E) : missingDiag ds f E' := by
  obtain ⟨m, hm, hp⟩ := h
  exact ⟨m, hsub hm, hp⟩

theorem addMissingFacet_subset (ds f : String) (E : Finset String) :
    E ⊆ addMissingFacet ds f E := by
  unfold addMissingFacet
  split
  · exact Finset.Subset.refl E
  · exact Finset.subset_insert _ E

theorem addMissingFacet_diag (ds f : String) (E : Finset String) :
    missingDiag ds f (addMissingFacet ds f E) := by
  unfold addMissingFacet
  split
  case isTrue h =>
    obtain ⟨m, hm, hp⟩ := h
    exact ⟨m, hm, Or.inl hp⟩
  case isFalse h =>
    exact ⟨valueNotFoundMsg ds f, Finset.mem_insert_self _ _, Or.inr rfl⟩

/-- Full characterisation of the `_generate_ds_id` loop: the error flag is
set iff it was set or some facet in the list is missing; the accumulator
grows by exactly the stem suffix; the message set only grows; and every
missing facet of the list has a diagnostic afterwards. -/
theorem gen_ds_id_loop_spec (ds : String) (lookup : String → Option String) :
    ∀ (fl : List String) (err : Bool) (acc : String) (E : Finset String),
      (gen_ds_id_loop ds lookup fl err acc E).1 =
        (err || fl.any (facetMissing lookup)) ∧
      (gen_ds_id_loop ds lookup fl err acc E).2.1 =
        acc ++ stemSuffix lookup fl ∧
      E ⊆ (gen_ds_id_loop ds lookup fl err acc E).2.2 ∧
      (∀ f ∈ fl, facetMissing lookup f = true →
        missingDiag ds f (gen_ds_id_loop ds lookup fl err acc E).2.2) := by
  intro fl
  induction fl with
  | nil =>
    intro err acc E
    refine ⟨by simp [gen_ds_id_loop], by simp [gen_ds_id_loop, stemSuffix],
      Finset.Subset.refl E, by simp⟩
  | cons f rest ih =>
    intro err acc E
    cases hf : lookup f with
    | none =>
      have hmiss : facetMissing lookup f = true := by
        simp [facetMissing, hf]
      obtain ⟨ih1, ih2, ih3, ih4⟩ :=
        ih true acc (addMissingFacet ds f E)
      refine ⟨?_, ?_, ?_, ?_⟩
      · simp only [gen_ds_id_loop, hf, ih1, List.any_cons, hmiss]
        simp
      · simp only [gen_ds_id_loop, hf, ih2, stemSuffix]
      · simp only [gen_ds_id_loop, hf]
        exact (addMissingFacet_subset ds f E).trans ih3
      · intro g hg hgmiss
        simp only [gen_ds_id_loop, hf]
        rcases List.mem_cons.mp hg with hgf | hgr
        · subst hgf
          exact missingDiag_mono ih3 (addMissingFacet_diag ds g E)
        · exact ih4 g hgr hgmiss
    | some v =>
      by_cases hv : v = ""
      · have hmiss : facetMissing lookup f = true := by
          simp [facetMissing, hf, hv]
        obtain ⟨ih1, ih2, ih3, ih4⟩ :=
          ih true acc (addMissingFacet ds f E)
        have hstep : gen_ds_id_loop ds lookup (f :: rest) err acc E =
            gen_ds_id_loop ds lookup rest true acc (addMissingFacet ds f E) := by
          simp only [gen_ds_id_loop, hf]
          rw [if_pos hv]
        have hsuf : stemSuffix lookup (f :: rest) = stemSuffix lookup rest := by
          simp only [stemSuffix, hf]
          rw [if_pos hv]
        rw [hstep, hsuf]
        refine ⟨?_, ih2, (addMissingFacet_subset ds f E).trans ih3, ?_⟩
        · rw [ih1]
          simp [hmiss]
        · intro g hg hgmiss
          rcases List.mem_cons.mp hg with hgf | hgr
          · subst hgf
            exact missingDiag_mono ih3 (addMissingFacet_diag ds g E)
          · exact ih4 g hgr hgmiss
      · have hmiss : facetMissing lookup f = false := by
          simp [facetMissing, hf, hv]
        obtain ⟨ih1, ih2, ih3, ih4⟩ :=
          ih err (acc ++ "." ++ normFacetValue f v) E
        have hstep : gen_ds_id_loop ds lookup (f :: rest) err acc E =
            gen_ds_id_loop ds lookup rest err
              (acc ++ "." ++ normFacetValue f v) E := by
          simp only [gen_ds_id_loop, hf]
          rw [if_neg hv]
        have hsuf : stemSuffix lookup (f :: rest) =
            "." ++ normFacetValue f v ++ stemSuffix lookup rest := by
          simp only [stemSuffix, hf]
          rw [if_neg hv]
        rw [hstep, hsuf]
        refine ⟨?_, ?_, ih3, ?_⟩
        · rw [ih1]
          simp [hmiss]
        · rw [ih2]
          simp [String.append_assoc]
        · intro g hg hgmiss
          rcases List.mem_cons.mp hg with hgf | hgr
          · subst hgf
            rw [hgmiss] at hmiss
            exact absurd hmiss (by simp)
          · exact ih4 g hgr hgmiss

/-! ### Unfolding equations for `replaceL` -/

theorem replaceL_cons_match {old : List Char} (new : List Char) {c : Char}
    {rest : List Char} (hne : old ≠ [])
    (hp : old.isPrefixOf (c :: rest) = true) :
    replaceL old new (c :: rest) =
      new ++ replaceL old new (rest.drop (old.length - 1)) := by
  show replaceF old new (rest.length + 1) (c :: rest) = _
  simp only [replaceF]
  rw [if_pos ⟨hne, hp⟩,
    replaceF_fuel _ _ _ _ (by simp [List.length_drop])]

theorem replaceL_cons_nomatch {old : List Char} (new : List Char) {c : Char}
    {rest : List Char} (h : ¬(old ≠ [] ∧ old.isPrefixOf (c :: rest) = true)) :
    replaceL old new (c :: rest) = c :: replaceL old new rest := by
  show replaceF old new (rest.length + 1) (c :: rest) = _
  simp only [replaceF]
  rw [if_neg h, replaceF_fuel _ _ _ _ (le_refl _)]

/-- Replacing every occurrence of the single character `c` with a
`c`-free replacement leaves no occurrence of `c`. -/
theorem not_mem_replaceL_single {c : Char} {new : List Char}
    (hn : c ∉ new) : ∀ l, c ∉ replaceL [c] new l := by
  intro l
  induction l with
  | nil => simp [replaceL, replaceF]
  | cons d rest ih =>
    by_cases hd : d = c
    · subst hd
      rw [@replaceL_cons_match [d] new d rest (by simp)
        (by simp [List.isPrefixOf])]
      simp only [List.length_cons, List.length_nil, Nat.sub_self,
        List.drop_zero, List.mem_append]
      rintro (h | h)
      · exact hn h
      · exact ih h
    · have hcond : ¬([c] ≠ [] ∧ List.isPrefixOf [c] (d :: rest) = true) := by
        rintro ⟨-, hp⟩
        have hcd : c = d := by simpa [List.isPrefixOf] using hp
        exact hd hcd.symm
      rw [replaceL_cons_nomatch new hcond]
      intro hmem
      rcases List.mem_cons.mp hmem with h | h
      · exact hd h.symm
      · exact ih h

/-- Replacement with a `c`-free pattern image preserves `c`-freeness. -/
theorem not_mem_replaceL {c : Char} {old new : List Char} (hn : c ∉ new) :
    ∀ l, c ∉ l → c ∉ replaceL old new l := by
  have key : ∀ n, ∀ l : List Char, l.length ≤ n → c ∉ l →
      c ∉ replaceL old new l := by
    intro n
    induction n using Nat.strong_induction_on with
    | _ n ih =>
      intro l hlen hl
      cases l with
      | nil => simp [replaceL, replaceF]
      | cons d rest =>
        by_cases hcond : old ≠ [] ∧ old.isPrefixOf (d :: rest) = true
        · rw [replaceL_cons_match new hcond.1 hcond.2]
          simp only [List.mem_append]
          rintro (h | h)
          · exact hn h
          · have hrl : rest.length < n := by
              simp only [List.length_cons] at hlen
              omega
            exact ih rest.length hrl _ (by simp [List.length_drop])
              (fun hm => hl (List.mem_cons_of_mem d (List.mem_of_mem_drop hm)))
              h
        · rw [replaceL_cons_nomatch new hcond]
          intro hmem
          rcases List.mem_cons.mp hmem with h | h
          · exact hl (h ▸ List.mem_cons_self d rest)
          · have hrl : rest.length < n := by
              simp only [List.length_cons] at hlen
              omega
            exact ih rest.length hrl rest (le_refl _)
              (fun hm => hl (List.mem_cons_of_mem d hm)) h
  intro l
  exact key l.length l (le_refl _)

/-- Normalized facet values contain no `.` character. -/
theorem normFacetValue_dot_free (f v : String) :
    '.' ∉ (normFacetValue f v).data := by
  have h1 : '.' ∉ (pyReplace v "." "-").data :=
    not_mem_replaceL_single (by decide) v.data
  have h2 : '.' ∉ (pyReplace (pyReplace v "." "-") " " "-").data :=
    not_mem_replaceL (by decide) _ h1
  unfold normFacetValue
  split
  · exact not_mem_replaceL (by decide) _ (not_mem_replaceL (by decide) _ h2)
  · exact h2

/-- Splitting a dot-free piece followed by dot-prefixed dot-free pieces
recovers exactly those pieces. -/
theorem splitL_dot_pieces :
    ∀ (segs : List (List Char)) (a : List Char), '.' ∉ a →
      (∀ p ∈ segs, '.' ∉ p) →
      splitL ['.'] (a ++ (segs.map ('.' :: ·)).flatten) = a :: segs := by
  intro segs
  induction segs with
  | nil =>
    intro a ha _
    simpa using splitL_single ha
  | cons p ps ih =>
    intro a ha hp
    have : a ++ ((p :: ps).map ('.' :: ·)).flatten =
        a ++ '.' :: (p ++ (ps.map ('.' :: ·)).flatten) := by
      simp
    rw [this, splitL_append ha,
      ih p (hp p (List.mem_cons_self p ps))
        (fun q hq => hp q (List.mem_cons_of_mem p hq))]

/-- The stem suffix for a list of present facets decomposes into one
dot-prefixed, dot-free segment per facet (its normalized value). -/
theorem stemSuffix_data (lookup : String → Option String) :
    ∀ fl : List String, (∀ f ∈ fl, facetMissing lookup f = false) →
      ∃ segs : List (List Char),
        List.Forall₂ (fun f seg => ∃ v, lookup f = some v ∧ v ≠ "" ∧
          seg = (normFacetValue f v).data) fl segs ∧
        (∀ p ∈ segs, '.' ∉ p) ∧
        (stemSuffix lookup fl).data = (segs.map ('.' :: ·)).flatten := by
  intro fl
  induction fl with
  | nil =>
    intro _
    exact ⟨[], List.Forall₂.nil, by simp, by simp [stemSuffix]⟩
  | cons f rest ih =>
    intro hall
    have hf := hall f (List.mem_cons_self f rest)
    obtain ⟨segs, hfa, hdot, hdata⟩ :=
      ih (fun g hg => hall g (List.mem_cons_of_mem f hg))
    cases hlf : lookup f with
    | none => simp [facetMissing, hlf] at hf
    | some v =>
      have hv : v ≠ "" := by
        intro he
        simp [facetMissing, hlf, he] at hf
      refine ⟨(normFacetValue f v).data :: segs,
        List.Forall₂.cons ⟨v, hlf, hv, rfl⟩ hfa, ?_, ?_⟩
      · intro p hp
        rcases List.mem_cons.mp hp with h | h
        · exact h ▸ normFacetValue_dot_free f v
        · exact hdot p h
      · have : stemSuffix lookup (f :: rest) =
            "." ++ normFacetValue f v ++ stemSuffix lookup rest := by
          simp only [stemSuffix, hlf]
          rw [if_neg hv]
        rw [this]
        simp only [String.data_append, hdata]
        simp

/-! ### Claim C1 -/

/-- C1: for every dataset path and resolved-facet mapping, `_generate_ds_id`
either returns the fixed prefix followed by exactly 8 dot-delimited facet
segments (the normalized values of the fixed ordered facet list), or
returns `none` with a missing-facet diagnostic present for each absent or
empty facet; it never returns a stem with fewer segments. -/
theorem ds_id_build (ds : String) (lookup : String → Option String)
    (E : Finset String) :
    ((generate_ds_id ds lookup E).1 = none ↔
      ∃ f ∈ facetOrder, facetMissing lookup f = true) ∧
    (∀ s, (generate_ds_id ds lookup E).1 = some s →
      ∃ segs : List (List Char),
        List.Forall₂ (fun f seg => ∃ v, lookup f = some v ∧ v ≠ "" ∧
          seg = (normFacetValue f v).data) facetOrder segs ∧
        splitL ['.'] s.data = DRS_ESACCI.data :: segs ∧
        (splitL ['.'] s.data).length = 9) ∧
    ((generate_ds_id ds lookup E).1 = none →
      ∀ f ∈ facetOrder, facetMissing lookup f = true →
        missingDiag ds f (generate_ds_id ds lookup E).2) := by
  obtain ⟨h1, h2, _, h4⟩ :=
    gen_ds_id_loop_spec ds lookup facetOrder false DRS_ESACCI E
  refine ⟨?_, ?_, ?_⟩
  · constructor
    · intro hnone
      by_contra hc
      push_neg at hc
      have hany : facetOrder.any (facetMissing lookup) = false := by
        rw [List.any_eq_false]
        intro f hf
        simpa using hc f hf
      rw [hany] at h1
      simp only [generate_ds_id, h1, Bool.false_or] at hnone
      simp at hnone
    · intro ⟨f, hf, hmiss⟩
      have hany : facetOrder.any (facetMissing lookup) = true :=
        List.any_eq_true.mpr ⟨f, hf, hmiss⟩
      rw [hany] at h1
      simp [generate_ds_id, h1]
  · intro s hs
    have herr : (gen_ds_id_loop ds lookup facetOrder false DRS_ESACCI E).1 =
        false := by
      by_contra hc
      rw [Bool.not_eq_false] at hc
      simp [generate_ds_id, hc] at hs
    have hsval : s = DRS_ESACCI ++ stemSuffix lookup facetOrder := by
      simp only [generate_ds_id, herr, Bool.false_eq_true, if_false,
        Option.some.injEq] at hs
      rw [← hs, h2]
    have hnomiss : ∀ f ∈ facetOrder, facetMissing lookup f = false := by
      rw [herr, Bool.false_eq, Bool.or_eq_false_iff] at h1
      intro f hf
      simpa using (List.any_eq_false.mp h1.2) f hf
    obtain ⟨segs, hfa, hdot, hdata⟩ := stemSuffix_data lookup facetOrder hnomiss
    have hsplit : splitL ['.'] s.data = DRS_ESACCI.data :: segs := by
      rw [hsval, String.data_append, hdata]
      exact splitL_dot_pieces segs DRS_ESACCI.data (by decide) hdot
    refine ⟨segs, hfa, hsplit, ?_⟩
    rw [hsplit]
    have : segs.length = facetOrder.length := hfa.length_eq.symm
    simp [this, facetOrder]
  · intro _ f hf hmiss
    exact h4 f hf hmiss

/-- Reference facet mapping used to instantiate C1's theorem. -/
def lookupRef : String → Option String := fun f =>
  if f = ECV then some "cloud"
  else if f = FREQUENCY then some "month"
  else if f = PROCESSING_LEVEL then some "L3"
  else if f = DATA_TYPE then some "CLD PRODUCTS"
  else if f = SENSOR then some "AVHRR"
  else if f = PLATFORM then some "multi-platform"
  else if f = PRODUCT_STRING then some "AVHRR-AM"
  else if f = PRODUCT_VERSION then some "2.0"
  else none

/-- C1 witness: a fully resolved facet mapping produces a stem with the
fixed prefix and exactly 8 dot-delimited segments (normalized values). -/
theorem ds_id_build_witness :
    (generate_ds_id "d" lookupRef ∅).1 =
      some "esacci.cloud.mon.L3.CLD-PRODUCTS.AVHRR.multi-platform.AVHRR-AM.2-0" ∧
    ∀ s, (generate_ds_id "d" lookupRef ∅).1 = some s →
      (splitL ['.'] s.data).length = 9 := by
  constructor
  · decide
  · intro s hs
    obtain ⟨-, h2, -⟩ := ds_id_build "d" lookupRef ∅
    obtain ⟨segs, -, -, hlen⟩ := h2 s hs
    exact hlen

/-! ## Realization allocation (`ProcessDatasets._get_next_realization`)

The method first scans the dataset's prior identifiers (`DRS_Mapping`'s
per-dataset set, modelled as a list in insertion order, i.e. store-file
order): the first entry that `startswith` the stem is split on
`stem + "."` and index `[1]` of the result is returned — an `IndexError`
when the separator does not occur.  Otherwise it scans realization numbers
`1, 2, …` until `stem.rN` is in neither the full historical identifier
list nor the keys minted so far this run; the unbounded `while True` is
modelled with explicit fuel, proved sufficient below. -/

/-- The candidate identifier `'%s.r%s' % (drs_id, realization_no)`. -/
def realizationId (drs_id : String) (n : Nat) : String :=
  drs_id ++ ".r" ++ Nat.repr n

/-- A candidate collides with a historical or already-minted identifier. -/
def realizationTaken (drs_id : String) (hist minted : List String)
    (n : Nat) : Prop :=
  realizationId drs_id n ∈ hist ∨ realizationId drs_id n ∈ minted

instance (drs_id : String) (hist minted : List String) (n : Nat) :
    Decidable (realizationTaken drs_id hist minted n) :=
  inferInstanceAs (Decidable (_ ∨ _))

/-- The `while True` realization scan, with explicit fuel. -/
def mintLoop (drs_id : String) (hist minted : List String) :
    Nat → Nat → Option Nat
  | 0, _ => none
  | fuel + 1, n =>
    if realizationTaken drs_id hist minted n then
      mintLoop drs_id hist minted fuel (n + 1)
    else some n

/-- The scan over the dataset's prior identifiers (lines 626–631): the
first entry beginning with the stem is split on `stem + "."`, whose index
1 is the result (`IndexError` when absent). -/
def findExisting (drs_id : String) : List String → Option (Except PyErr String)
  | [] => none
  | e :: rest =>
    if pyStartsWith drs_id e then
      some (match (pySplit (drs_id ++ ".") e).get? 1 with
            | some r => .ok r
            | none => .error .index)
    else findExisting drs_id rest

/-- `ProcessDatasets._get_next_realization`: `priors` is the dataset's prior
identifier list (`DRS_Mapping.get_drs(ds)`), `hist` the full historical
identifier list (`get_drs()`), `minted` the identifiers already minted this
run (`drs.keys()`). -/
def get_next_realization (drs_id : String) (priors hist minted : List String) :
    Except PyErr String :=
  match findExisting drs_id priors with
  | some r => r
  | none =>
    match mintLoop drs_id hist minted (hist.length + minted.length + 1) 1 with
    | some n => .ok ("r" ++ Nat.repr n)
    | none => .error .fuel

/-! ### Injectivity of the decimal numeral, for the pigeonhole argument -/

/-- Decimal digit list of a natural number (most significant first). -/
def toDig (n : Nat) : List Char :=
  if n < 10 then [Nat.digitChar n]
  else toDig (n / 10) ++ [Nat.digitChar (n % 10)]
decreasing_by exact Nat.div_lt_self (by omega) (by omega)

/-- Numeric value of a digit character. -/
def digitVal (c : Char) : Nat := c.toNat - 48

/-- Evaluation map inverting `toDig`. -/
def ofDig (l : List Char) : Nat :=
  l.foldl (fun a c => 10 * a + digitVal c) 0

theorem digitVal_digitChar {d : Nat} (h : d < 10) :
    digitVal (Nat.digitChar d) = d := by
  interval_cases d <;> rfl

theorem toDigitsCore_eq_toDig :
    ∀ (n : Nat), ∀ (fuel : Nat) (ds : List Char), n < fuel →
      Nat.toDigitsCore 10 fuel n ds = toDig n ++ ds := by
  intro n
  induction n using Nat.strong_induction_on with
  | _ n ih =>
    intro fuel ds hfuel
    cases fuel with
    | zero => omega
    | succ f =>
      by_cases h10 : n < 10
      · have hdiv : n / 10 = 0 := Nat.div_eq_of_lt h10
        have hmod : n % 10 = n := Nat.mod_eq_of_lt h10
        simp only [Nat.toDigitsCore, hdiv, if_pos rfl, hmod]
        rw [toDig, if_pos h10]
        rfl
      · have hdiv : n / 10 ≠ 0 := by
          intro h
          exact h10 (by omega)
        have hlt : n / 10 < n := Nat.div_lt_self (by omega) (by omega)
        have hltf : n / 10 < f := by omega
        have hT : toDig n = toDig (n / 10) ++ [Nat.digitChar (n % 10)] := by
          rw [toDig]
          exact if_neg h10
        simp only [Nat.toDigitsCore, if_neg hdiv]
        rw [ih (n / 10) hlt f _ hltf, hT]
        simp

theorem repr_data_eq_toDig (n : Nat) : (Nat.repr n).data = toDig n := by
  show (Nat.toDigits 10 n).asString.data = toDig n
  unfold Nat.toDigits
  rw [toDigitsCore_eq_toDig n (n + 1) [] (Nat.lt_succ_self n)]
  simp [List.asString]

theorem ofDig_append_digit (l : List Char) (c : Char) :
    ofDig (l ++ [c]) = 10 * ofDig l + digitVal c := by
  unfold ofDig
  rw [List.foldl_append]
  rfl

theorem ofDig_toDig (n : Nat) : ofDig (toDig n) = n := by
  induction n using Nat.strong_induction_on with
  | _ n ih =>
    by_cases h10 : n < 10
    · rw [toDig, if_pos h10]
      show 10 * 0 + digitVal (Nat.digitChar n) = n
      rw [digitVal_digitChar h10]
      omega
    · rw [toDig, if_neg h10, ofDig_append_digit,
        ih (n / 10) (Nat.div_lt_self (by omega) (by omega)),
        digitVal_digitChar (Nat.mod_lt n (by omega))]
      omega

theorem nat_repr_injective {a b : Nat} (h : Nat.repr a = Nat.repr b) :
    a = b := by
  have hd : toDig a = toDig b := by
    rw [← repr_data_eq_toDig, ← repr_data_eq_toDig, h]
  calc a = ofDig (toDig a) := (ofDig_toDig a).symm
    _ = ofDig (toDig b) := by rw [hd]
    _ = b := ofDig_toDig b

theorem realizationId_injective (drs_id : String) {a b : Nat}
    (h : realizationId drs_id a = realizationId drs_id b) : a = b := by
  unfold realizationId at h
  have hdata := congrArg String.data h
  simp only [String.data_append] at hdata
  rw [List.append_assoc, List.append_assoc] at hdata
  have h2 : (Nat.repr a).data = (Nat.repr b).data :=
    List.append_cancel_left (List.append_cancel_left hdata)
  exact nat_repr_injective (String.ext h2)

/-! ### The scan terminates: some candidate in the first
`hist.length + minted.length + 1` is free -/

theorem exists_free_realization (drs_id : String) (hist minted : List String) :
    ∃ k < hist.length + minted.length + 1,
      ¬ realizationTaken drs_id hist minted (1 + k) := by
  by_contra hc
  push_neg at hc
  set B := hist.length + minted.length + 1 with hB
  set L := hist ++ minted with hL
  have hmem : ∀ k ∈ Finset.range B,
      realizationId drs_id (1 + k) ∈ L.toFinset := by
    intro k hk
    rcases hc k (Finset.mem_range.mp hk) with h | h
    · exact List.mem_toFinset.mpr (List.mem_append_left _ h)
    · exact List.mem_toFinset.mpr (List.mem_append_right _ h)
  have hinj : Function.Injective (fun k => realizationId drs_id (1 + k)) := by
    intro a b hab
    have := realizationId_injective drs_id hab
    omega
  have himg : (Finset.range B).image (fun k => realizationId drs_id (1 + k))
      ⊆ L.toFinset := by
    intro x hx
    obtain ⟨k, hk, rfl⟩ := Finset.mem_image.mp hx
    exact hmem k hk
  have hcard := Finset.card_le_card himg
  rw [Finset.card_image_of_injective _ hinj, Finset.card_range] at hcard
  have hlen : L.toFinset.card ≤ L.length := List.toFinset_card_le L
  have hLlen : L.length = hist.length + minted.length := by
    simp [hL]
  omega

theorem mintLoop_some (drs_id : String) (hist minted : List String) :
    ∀ fuel start, (∃ k < fuel, ¬ realizationTaken drs_id hist minted (start + k)) →
      ∃ n, mintLoop drs_id hist minted fuel start = some n := by
  intro fuel
  induction fuel with
  | zero =>
    rintro start ⟨k, hk, -⟩
    omega
  | succ f ih =>
    rintro start ⟨k, hk, hfree⟩
    by_cases hs : realizationTaken drs_id hist minted start
    · have hk0 : k ≠ 0 := by
        rintro rfl
        simp at hfree
        exact hfree hs
      obtain ⟨k', rfl⟩ := Nat.exists_eq_succ_of_ne_zero hk0
      have : start + (k' + 1) = (start + 1) + k' := by omega
      rw [this] at hfree
      obtain ⟨n, hn⟩ := ih (start + 1) ⟨k', by omega, hfree⟩
      exact ⟨n, by rw [mintLoop, if_pos hs]; exact hn⟩
    · exact ⟨start, by rw [mintLoop, if_neg hs]⟩

theorem mintLoop_spec (drs_id : String) (hist minted : List String) :
    ∀ fuel start n, mintLoop drs_id hist minted fuel start = some n →
      start ≤ n ∧ ¬ realizationTaken drs_id hist minted n ∧
        ∀ m, start ≤ m → m < n → realizationTaken drs_id hist minted m := by
  intro fuel
  induction fuel with
  | zero =>
    intro start n h
    simp [mintLoop] at h
  | succ f ih =>
    intro start n h
    rw [mintLoop] at h
    split at h
    case isTrue hs =>
      obtain ⟨h1, h2, h3⟩ := ih (start + 1) n h
      refine ⟨by omega, h2, ?_⟩
      intro m hm hmn
      rcases Nat.eq_or_lt_of_le hm with rfl | hlt
      · exact hs
      · exact h3 m (by omega) hmn
    case isFalse hs =>
      injection h with hn
      subst hn
      exact ⟨le_refl _, hs, fun m hm hmn => absurd hmn (by omega)⟩

theorem findExisting_none (drs_id : String) :
    ∀ priors : List String, (∀ e ∈ priors, pyStartsWith drs_id e = false) →
      findExisting drs_id priors = none := by
  intro priors
  induction priors with
  | nil => intro _; rfl
  | cons e rest ih =>
    intro h
    rw [findExisting]
    rw [if_neg (by simp [h e (List.mem_cons_self e rest)])]
    exact ih (fun x hx => h x (List.mem_cons_of_mem e hx))

theorem findExisting_no_fuel_err (drs_id : String) :
    ∀ priors r, findExisting drs_id priors = some r → r ≠ .error .fuel := by
  intro priors
  induction priors with
  | nil => intro r h; simp [findExisting] at h
  | cons e rest ih =>
    intro r h
    rw [findExisting] at h
    split at h
    · cases h
      split <;> simp
    · exact ih r h

/-! ### Claims C6 and C10 -/

/-- C6: with no prior identifier matching the stem, the allocator returns
`rN` for the least positive `N` such that `stem.rN` occurs neither in the
historical identifier list nor among the identifiers minted this run. -/
theorem realization_freshness (drs_id : String)
    (priors hist minted : List String)
    (hno : ∀ e ∈ priors, pyStartsWith drs_id e = false) :
    ∃ N, get_next_realization drs_id priors hist minted =
        .ok ("r" ++ Nat.repr N) ∧ 1 ≤ N ∧
      ¬ realizationTaken drs_id hist minted N ∧
      ∀ m, 1 ≤ m → m < N → realizationTaken drs_id hist minted m := by
  obtain ⟨k, hk, hfree⟩ := exists_free_realization drs_id hist minted
  obtain ⟨n, hn⟩ := mintLoop_some drs_id hist minted
    (hist.length + minted.length + 1) 1 ⟨k, hk, hfree⟩
  obtain ⟨h1, h2, h3⟩ := mintLoop_spec drs_id hist minted _ _ _ hn
  refine ⟨n, ?_, h1, h2, h3⟩
  unfold get_next_realization
  rw [findExisting_none drs_id priors hno, hn]

/-- C6 witness: no prior entry, `stem.r1` and `stem.r2` already minted this
run: the allocator returns `r3`, and `r3` is the least free realization. -/
theorem realization_freshness_witness :
    get_next_realization "esacci.x" [] []
        ["esacci.x.r1", "esacci.x.r2"] = .ok "r3" ∧
    ∃ N, get_next_realization "esacci.x" [] []
          ["esacci.x.r1", "esacci.x.r2"] = .ok ("r" ++ Nat.repr N) ∧
        1 ≤ N ∧
      ¬ realizationTaken "esacci.x" [] ["esacci.x.r1", "esacci.x.r2"] N ∧
      ∀ m, 1 ≤ m → m < N →
        realizationTaken "esacci.x" [] ["esacci.x.r1", "esacci.x.r2"] m :=
  ⟨by decide,
   realization_freshness "esacci.x" [] [] ["esacci.x.r1", "esacci.x.r2"]
     (by decide)⟩

/-- C10: the realization scan always terminates: within fuel equal to the
number of identifiers that could collide plus one, some `rN` is found, and
the allocator never reports fuel exhaustion. -/
theorem mint_terminates (drs_id : String) (priors hist minted : List String) :
    (∃ n, mintLoop drs_id hist minted
      (hist.length + minted.length + 1) 1 = some n) ∧
    get_next_realization drs_id priors hist minted ≠ .error .fuel := by
  obtain ⟨k, hk, hfree⟩ := exists_free_realization drs_id hist minted
  obtain ⟨n, hn⟩ := mintLoop_some drs_id hist minted
    (hist.length + minted.length + 1) 1 ⟨k, hk, hfree⟩
  refine ⟨⟨n, hn⟩, ?_⟩
  unfold get_next_realization
  cases hfe : findExisting drs_id priors with
  | none =>
    rw [hn]
    simp
  | some r =>
    exact findExisting_no_fuel_err drs_id priors r hfe

/-- C10 witness: instantiation at concrete inputs. -/
theorem mint_terminates_witness :
    (∃ n, mintLoop "esacci.y" ["esacci.y.r1"] []
      (["esacci.y.r1"].length + ([] : List String).length + 1) 1 = some n) ∧
    get_next_realization "esacci.y" [] ["esacci.y.r1"] [] ≠ .error .fuel :=
  mint_terminates "esacci.y" [] ["esacci.y.r1"] []

/-! ### Claim C2 -/

/-- C2: the prior-identifier lookup is broken for the claim as stated: with
the dataset's prior identifiers `["esacci.a-x.r1", "esacci.a.r3"]` (in
iteration order) and stem `esacci.a`, the priors do contain an identifier
beginning with `stem + "."` (namely `esacci.a.r3`), yet the code hits
`esacci.a-x.r1` first — it `startswith` the stem but does not contain
`stem + "."` — and raises `IndexError` instead of returning `r3`. -/
theorem realization_lookup_crash :
    pyStartsWith ("esacci.a" ++ ".") "esacci.a.r3" = true ∧
    "esacci.a.r3" ∈ ["esacci.a-x.r1", "esacci.a.r3"] ∧
    get_next_realization "esacci.a" ["esacci.a-x.r1", "esacci.a.r3"] [] [] =
      .error .index := by
  decide

/-! ## Attribute resolution (`ProcessDatasets._process_file_atrib`)

Modelled from the spec where the backend is absent from the sources: the
`Facets` vocabulary service (`facets.py` is not in src; spec §2, §6 fix its
query contract: per-facet preferred/alternate label indexes, the platform →
programme and programme → group hierarchy, programme/group label lists) and
`TripleStore.get_pref_label` (an external SPARQL lookup returning a label or
`""`) are abstracted as a record of total lookup functions.  A failed
`get_programmes_group` lookup (`KeyError`, caught by the code) is `none`. -/

structure Facets where
  labels : String → String → Option String
  altLabels : String → String → Option String
  platformsProgramme : String → String
  programmesGroup : Option String → Option String
  programmeLabels : List String
  groupLabels : List String
  prefLabel : String → String

/-- `ProcessDatasets._convert_term`: lower-case the term; when local
mappings are enabled, a case-insensitive hit in the facet's local mapping
table substitutes the (lower-cased) vocabulary value. -/
def convert_term (um : Bool) (facet term : String) : String :=
  if um then
    match (localMapping facet).find?
        (fun kv => pyLower term = pyLower kv.1) with
    | some kv => pyLower kv.2
    | none => pyLower term
  else pyLower term

/-- `ProcessDatasets._get_term_uri` (lookup part): preferred-label index
first, then alternate-label index.  The diagnostic side effects are handled
at the call sites that the claims concern. -/
def get_term_uri (fs : Facets) (um : Bool) (facet term : String) :
    Option String :=
  match fs.labels (pyLower facet) (convert_term um (pyLower facet) term) with
  | some uri => some uri
  | none => fs.altLabels (pyLower facet) (convert_term um (pyLower facet) term)

/-- `ProcessDatasets._get_programme_group`: the platform's programme URI,
plus the programme's group URI when the programme has a group. -/
def get_programme_group (fs : Facets) (um : Bool) (term_uri : String) :
    List (Option String) :=
  match fs.programmesGroup
      (get_term_uri fs um PLATFORM_PROGRAMME (fs.platformsProgramme term_uri)) with
  | some group =>
    [get_term_uri fs um PLATFORM_PROGRAMME (fs.platformsProgramme term_uri),
     get_term_uri fs um PLATFORM_GROUP group]
  | none =>
    [get_term_uri fs um PLATFORM_PROGRAMME (fs.platformsProgramme term_uri)]

/-- `ProcessDatasets._get_paltform_as_programme`: a raw platform string that
is itself a programme label resolves at programme level (plus its group, if
any); a group label resolves at group level; otherwise nothing. -/
def get_platform_as_programme (fs : Facets) (um : Bool) (platform : String) :
    List (Option String) :=
  if platform ∈ fs.programmeLabels then
    match fs.programmesGroup
        (get_term_uri fs um PLATFORM_PROGRAMME platform) with
    | some group =>
      [get_term_uri fs um PLATFORM_PROGRAMME platform,
       get_term_uri fs um PLATFORM_GROUP group]
    | none => [get_term_uri fs um PLATFORM_PROGRAMME platform]
  else if platform ∈ fs.groupLabels then
    [get_term_uri fs um PLATFORM_GROUP platform]
  else []

/-- The per-attribute resolution state of `_process_file_atrib`: the DRS
value for the facet (absent key modelled as `none`), the tag set (a Python
set that may contain `None`, hence `Finset (Option String)`; the key is
present iff the set is non-empty, which the code maintains), and
`term_count`. -/
structure AttribState where
  drsVal : Option String
  tagSet : Finset (Option String)
  termCount : Nat
deriving DecidableEq

/-- The body of the `for bit in bits` loop (tagger.py lines 504–528). -/
def processBit (fs : Facets) (um : Bool) (ga : String) (st : AttribState)
    (bit : String) : AttribState :=
  match get_term_uri fs um ga (pyStrip bit) with
  | some uri =>
    { drsVal := some (fs.prefLabel uri),
      tagSet :=
        (if ga = PLATFORM then get_programme_group fs um uri else []).foldl
          (fun s t => insert t s)
          (insert (some uri)
            (if st.termCount = 0 then (∅ : Finset (Option String))
             else st.tagSet)),
      termCount := st.termCount + 1 }
  | none =>
    if ga = PLATFORM then
      { drsVal := st.drsVal,
        tagSet :=
          (get_platform_as_programme fs um (pyStrip bit)).foldl
            (fun s t => insert t s)
            (if get_platform_as_programme fs um (pyStrip bit) ≠ [] ∧
                st.termCount = 0 then (∅ : Finset (Option String))
             else st.tagSet),
        termCount :=
          if get_platform_as_programme fs um (pyStrip bit) ≠ [] ∧
              st.termCount = 0 then st.termCount + 2
          else st.termCount }
    else st

/-- The loop over all atomic candidates. -/
def processBits (fs : Facets) (um : Bool) (ga : String) :
    AttribState → List String → AttribState
  | st, [] => st
  | st, b :: rest => processBits fs um ga (processBit fs um ga st b) rest

/-- The multi-valued collapse after the loop (lines 530–533). -/
def collapseMulti (ga : String) (st : AttribState) : AttribState :=
  if 1 < st.termCount ∧ ga = SENSOR then
    { st with drsVal := some MULTI_SENSOR }
  else if 1 < st.termCount ∧ ga = PLATFORM then
    { st with drsVal := some MULTI_PLATFORM }
  else st

/-- Occurrence test on character lists (Python `sub in s`). -/
def containsSub (sub : List Char) : List Char → Bool
  | [] => sub.isEmpty
  | c :: rest => sub.isPrefixOf (c :: rest) || containsSub sub rest

/-- Python substring test `sub in s`. -/
def pyContains (sub s : String) : Bool :=
  containsSub sub.data s.data

/-- `bit.split('(', 1)[1]`: the text after the first `(`, `IndexError`
when there is none. -/
def parenExtract (bit : String) : Except PyErr String :=
  match pyAfterFirst '(' bit.data with
  | some rest => .ok ⟨rest⟩
  | none => .error .index

/-- The parenthesis rewrite of `_process_file_atrib` (lines 460–472):
split on `)`, skip empty pieces, keep the text after each piece's first
`(`, and join with commas. -/
def parenRewrite (attr : String) : Except PyErr String := do
  let segs ← ((pySplit ")" attr).filter (· ≠ "")).mapM parenExtract
  return String.intercalate "," segs

/-- The attribute-string normalization preceding the split (lines
459–473): parenthesis rewrite (mapping enabled, non-institution, `(` in
the value) and `'merged: '` removal (mapping enabled). -/
def attribNormalize (um : Bool) (ga attr : String) : Except PyErr String := do
  let attr1 ←
    if um ∧ ga ≠ INSTITUTION ∧ attr.data.contains '(' then parenRewrite attr
    else .ok attr
  return (if um then pyReplace attr1 "merged: " "" else attr1)

/-- The split into atomic candidates with the fixed per-facet hacks (lines
475–501), applied to the normalized attribute string. -/
def attribSplit (um : Bool) (ga attr2 : String) :
    Except PyErr (List String) := do
  let bits0 :=
    if attr2.data.contains '<' then pySplit ", " attr2 else pySplit "," attr2
  let bits1 :=
    if ga = PLATFORM ∧ "NOAA-<12,14,15,16,17,18>" ∈ bits0 then
      bits0.erase "NOAA-<12,14,15,16,17,18>" ++
        ["NOAA-12", "NOAA-14", "NOAA-15", "NOAA-16", "NOAA-17", "NOAA-18"]
    else bits0
  let bits2 :=
    if ga = PLATFORM ∧ "ERS-<1,2>" ∈ bits1 then
      bits1.erase "ERS-<1,2>" ++ ["ERS-1", "ERS-2"]
    else bits1
  let bits3 :=
    if um ∧ ga = SENSOR ∧ "MERISAATSR" ∈ bits2 then
      bits2.erase "MERISAATSR" ++ ["MERIS", "AATSR"]
    else bits2
  let bits4 :=
    if um ∧ ga = SENSOR ∧ " OMI and GOME-2." ∈ bits3 then
      bits3.erase " OMI and GOME-2." ++ ["OMI", "GOME-2"]
    else bits3
  if um ∧ ga = INSTITUTION ∧
      (pyContains "University of Leicester (UoL), UK" attr2 ∨
       pyContains "University of Leicester, UK" attr2) then
    match pyRemoveFirst " UK" bits4 with
    | some b => return b
    | none => throw .value
  else
    return bits4

/-- `ProcessDatasets._process_file_atrib`: normalize, split, resolve each
candidate, collapse multi-valued SENSOR/PLATFORM, and record an
invalid-value diagnostic when no DRS value was produced. -/
def process_file_atrib (fs : Facets) (um : Bool) (ga attr ds : String)
    (E : Finset String) : Except PyErr (AttribState × Finset String) := do
  let attr2 ← attribNormalize um ga attr
  let bits ← attribSplit um ga attr2
  let st := collapseMulti ga (processBits fs um ga ⟨none, ∅, 0⟩ bits)
  return (st,
    if st.drsVal = none then
      insert ("ERROR in " ++ ds ++ " for " ++ ga ++ ", invalid value \"" ++
        attr2 ++ "\"") E
    else E)

/-! ### Invariants of the candidate loop -/

theorem mem_foldl_insert {α : Type} [DecidableEq α] (l : List α)
    (s : Finset α) {x : α} (hx : x ∈ s) :
    x ∈ l.foldl (fun s t => insert t s) s := by
  induction l generalizing s with
  | nil => exact hx
  | cons a l ih => exact ih _ (Finset.mem_insert_of_mem hx)

theorem mem_foldl_insert_of_mem {α : Type} [DecidableEq α] (l : List α)
    (s : Finset α) {x : α} (hx : x ∈ l) :
    x ∈ l.foldl (fun s t => insert t s) s := by
  induction l generalizing s with
  | nil => cases hx
  | cons a l ih =>
    rcases List.mem_cons.mp hx with rfl | hmem
    · exact mem_foldl_insert l _ (Finset.mem_insert_self x s)
    · exact ih _ hmem

/-- The candidate count never decreases. -/
theorem processBit_count_mono (fs : Facets) (um : Bool) (ga : String)
    (st : AttribState) (b : String) :
    st.termCount ≤ (processBit fs um ga st b).termCount := by
  unfold processBit
  split
  · simp
  · split
    · simp only
      split <;> omega
    · exact le_refl _

theorem processBits_count_mono (fs : Facets) (um : Bool) (ga : String) :
    ∀ bits st, st.termCount ≤ (processBits fs um ga st bits).termCount := by
  intro bits
  induction bits with
  | nil => intro st; exact le_refl _
  | cons b rest ih =>
    intro st
    exact le_trans (processBit_count_mono fs um ga st b) (ih _)

/-- Once a term has been counted, the loop never discards tags. -/
theorem processBit_tag_mono (fs : Facets) (um : Bool) (ga : String)
    (st : AttribState) (b : String) (hc : st.termCount ≠ 0)
    {x : Option String} (hx : x ∈ st.tagSet) :
    x ∈ (processBit fs um ga st b).tagSet := by
  unfold processBit
  split
  · rw [if_neg hc]
    exact mem_foldl_insert _ _ (Finset.mem_insert_of_mem hx)
  · split
    · simp only
      rw [if_neg (by rintro ⟨-, h0⟩; exact hc h0)]
      exact mem_foldl_insert _ _ hx
    · exact hx

theorem processBits_tag_mono (fs : Facets) (um : Bool) (ga : String) :
    ∀ bits st, st.termCount ≠ 0 → ∀ x ∈ st.tagSet,
      x ∈ (processBits fs um ga st bits).tagSet := by
  intro bits
  induction bits with
  | nil => intro st _ x hx; exact hx
  | cons b rest ih =>
    intro st hc x hx
    have hc' : (processBit fs um ga st b).termCount ≠ 0 := by
      have := processBit_count_mono fs um ga st b
      omega
    exact ih _ hc' x (processBit_tag_mono fs um ga st b hc hx)

/-- Every directly resolved candidate's URI is in the final tag set. -/
theorem processBits_retention (fs : Facets) (um : Bool) (ga : String) :
    ∀ bits st, ∀ b ∈ bits, ∀ u,
      get_term_uri fs um ga (pyStrip b) = some u →
      some u ∈ (processBits fs um ga st bits).tagSet := by
  intro bits
  induction bits with
  | nil => intro st b hb; cases hb
  | cons b0 rest ih =>
    intro st b hb u hu
    rcases List.mem_cons.mp hb with rfl | hmem
    · have hstep : some u ∈ (processBit fs um ga st b).tagSet ∧
          (processBit fs um ga st b).termCount ≠ 0 := by
        unfold processBit
        rw [hu]
        constructor
        · exact mem_foldl_insert _ _ (Finset.mem_insert_self _ _)
        · simp
      exact processBits_tag_mono fs um ga rest _ hstep.2 _ hstep.1
    · exact ih _ b hmem u hu

theorem collapseMulti_sensor_multi (st : AttribState)
    (h : 1 < st.termCount) :
    (collapseMulti SENSOR st).drsVal = some MULTI_SENSOR := by
  unfold collapseMulti
  rw [if_pos ⟨h, rfl⟩]

theorem collapseMulti_platform_multi (st : AttribState)
    (h : 1 < st.termCount) :
    (collapseMulti PLATFORM st).drsVal = some MULTI_PLATFORM := by
  have hns : ¬(1 < st.termCount ∧ PLATFORM = SENSOR) := by
    rintro ⟨-, habs⟩
    exact absurd habs (by decide)
  unfold collapseMulti
  rw [if_neg hns, if_pos ⟨h, rfl⟩]

/-! ### Claim C3 -/

/-- C3: when the term count for a SENSOR or PLATFORM attribute exceeds 1
after resolving all atomic candidates, the DRS facet value is exactly the
`multi-sensor` / `multi-platform` sentinel, while the tag set retains the
URI of every directly resolved candidate. -/
theorem multi_collapse (fs : Facets) (um : Bool) (attr ds : String)
    (E : Finset String) (ga : String) (hga : ga = SENSOR ∨ ga = PLATFORM) :
    ∀ st E', process_file_atrib fs um ga attr ds E = .ok (st, E') →
      1 < st.termCount →
      st.drsVal =
        some (if ga = SENSOR then MULTI_SENSOR else MULTI_PLATFORM) ∧
      (∀ attr2 bits, attribNormalize um ga attr = .ok attr2 →
        attribSplit um ga attr2 = .ok bits →
        ∀ b ∈ bits, ∀ u, get_term_uri fs um ga (pyStrip b) = some u →
          some u ∈ st.tagSet) := by
  intro st E' hrun hcnt
  unfold process_file_atrib at hrun
  cases hn : attribNormalize um ga attr with
  | error e => rw [hn] at hrun; simp [Bind.bind, Except.bind] at hrun
  | ok attr2 =>
    rw [hn] at hrun
    simp only [Bind.bind, Except.bind] at hrun
    cases hsp : attribSplit um ga attr2 with
    | error e => rw [hsp] at hrun; simp at hrun
    | ok bits =>
      rw [hsp] at hrun
      simp only [pure, Except.pure, Except.ok.injEq, Prod.mk.injEq] at hrun
      obtain ⟨hst, hE'⟩ := hrun
      have hbase : st =
          collapseMulti ga (processBits fs um ga ⟨none, ∅, 0⟩ bits) :=
        hst.symm
      have hTagEq : st.tagSet =
          (processBits fs um ga ⟨none, ∅, 0⟩ bits).tagSet := by
        rw [hbase]
        unfold collapseMulti
        split
        · rfl
        · split <;> rfl
      have hCntEq : st.termCount =
          (processBits fs um ga ⟨none, ∅, 0⟩ bits).termCount := by
        rw [hbase]
        unfold collapseMulti
        split
        · rfl
        · split <;> rfl
      constructor
      · have hcnt' :
            1 < (processBits fs um ga ⟨none, ∅, 0⟩ bits).termCount :=
          hCntEq ▸ hcnt
        rcases hga with hga | hga
        · subst hga
          rw [if_pos rfl, hbase]
          exact collapseMulti_sensor_multi _ hcnt'
        · subst hga
          rw [if_neg (by decide), hbase]
          exact collapseMulti_platform_multi _ hcnt'
      · intro attr2' bits' hn' hsp' b hb u hu
        injection hn' with he
        subst he
        rw [hsp] at hsp'
        injection hsp' with he2
        subst he2
        rw [hTagEq]
        exact processBits_retention fs um ga bits _ b hb u hu

/-- Concrete vocabulary used to instantiate C3: two platforms sharing a
resolvable programme. -/
def fsRef : Facets where
  labels := fun f t =>
    if f = PLATFORM then
      if t = "envisat" then some "uriE"
      else if t = "ers-2" then some "uriR"
      else none
    else if f = PLATFORM_PROGRAMME then
      if t = "progx" then some "uriProg" else none
    else none
  altLabels := fun _ _ => none
  platformsProgramme := fun _ => "PROGX"
  programmesGroup := fun _ => none
  programmeLabels := []
  groupLabels := []
  prefLabel := fun u =>
    if u = "uriE" then "ENVISAT" else if u = "uriR" then "ERS-2" else ""

/-- C3 witness: a PLATFORM attribute resolving two distinct platform terms
produces DRS value `multi-platform` with both URIs retained in the tags. -/
theorem multi_collapse_witness :
    ∃ st E', process_file_atrib fsRef true PLATFORM "ENVISAT,ERS-2" "d" ∅ =
        .ok (st, E') ∧
      st.termCount = 2 ∧ st.drsVal = some MULTI_PLATFORM ∧
      some "uriE" ∈ st.tagSet ∧ some "uriR" ∈ st.tagSet := by
  have hrun : process_file_atrib fsRef true PLATFORM "ENVISAT,ERS-2" "d" ∅ =
      .ok (⟨some MULTI_PLATFORM,
        {some "uriR", some "uriProg", some "uriE"}, 2⟩, ∅) := by rfl
  obtain ⟨hdrs, hret⟩ := multi_collapse fsRef true "ENVISAT,ERS-2" "d" ∅
    PLATFORM (Or.inr rfl) _ _ hrun (by decide)
  rw [if_neg (by decide)] at hdrs
  refine ⟨_, _, hrun, by decide, hdrs, ?_, ?_⟩
  · exact hret "ENVISAT,ERS-2" ["ENVISAT", "ERS-2"] (by rfl) (by rfl)
      "ENVISAT" (by decide) "uriE" (by rfl)
  · exact hret "ENVISAT,ERS-2" ["ENVISAT", "ERS-2"] (by rfl) (by rfl)
      "ERS-2" (by decide) "uriR" (by rfl)

/-! ### Claim C7 -/

/-- Concrete vocabulary for C7: `P1` resolves as a platform, `PROG` fails
direct resolution but is a programme label. -/
def fsProg : Facets where
  labels := fun f t =>
    if f = PLATFORM ∧ t = "p1" then some "uriP1"
    else if f = PLATFORM_PROGRAMME ∧ t = "prog" then some "uriProg"
    else none
  altLabels := fun _ _ => none
  platformsProgramme := fun _ => "PROG"
  programmesGroup := fun _ => none
  programmeLabels := ["PROG"]
  groupLabels := []
  prefLabel := fun u => if u = "uriP1" then "P1lab" else ""

/-- C7 counterexample: the candidate `PROG` fails direct resolution and
matches a programme label, yet — because a platform term (`P1`) was already
counted — the term count is *not* inflated by 2: it stays 1 and the DRS
value remains the single platform's label, not `multi-platform`.  The
programme URI is still added to the tag set. -/
theorem platform_programme_counterexample :
    get_term_uri fsProg true PLATFORM "PROG" = none ∧
    get_platform_as_programme fsProg true "PROG" = [some "uriProg"] ∧
    process_file_atrib fsProg true PLATFORM "P1,PROG" "d" ∅ =
      .ok (⟨some "P1lab", {some "uriProg", some "uriP1"}, 1⟩, ∅) ∧
    some "P1lab" ≠ some MULTI_PLATFORM :=
  ⟨by rfl, by rfl, by rfl, by decide⟩

theorem processBit_fallback_eq (fs : Facets) (um : Bool) (st : AttribState)
    (bit : String) (hnone : get_term_uri fs um PLATFORM (pyStrip bit) = none) :
    processBit fs um PLATFORM st bit =
      { drsVal := st.drsVal,
        tagSet := (get_platform_as_programme fs um (pyStrip bit)).foldl
          (fun s t => insert t s)
          (if get_platform_as_programme fs um (pyStrip bit) ≠ [] ∧
              st.termCount = 0 then (∅ : Finset (Option String))
           else st.tagSet),
        termCount :=
          if get_platform_as_programme fs um (pyStrip bit) ≠ [] ∧
              st.termCount = 0 then st.termCount + 2
          else st.termCount } := by
  unfold processBit
  rw [hnone, if_pos rfl]

theorem processBits_fallback_count (fs : Facets) (um : Bool) :
    ∀ (bits : List String) (st : AttribState),
      (∀ b ∈ bits, get_term_uri fs um PLATFORM (pyStrip b) = none) →
      (2 ≤ st.termCount ∨ (st.termCount = 0 ∧
        ∃ b ∈ bits, get_platform_as_programme fs um (pyStrip b) ≠ [])) →
      2 ≤ (processBits fs um PLATFORM st bits).termCount := by
  intro bits
  induction bits with
  | nil =>
    rintro st _ (h2 | ⟨-, b, hb, -⟩)
    · exact h2
    · cases hb
  | cons b rest ih =>
    rintro st hfail (h2 | ⟨h0, bw, hbw, hp⟩)
    · refine ih _ (fun x hx => hfail x (List.mem_cons_of_mem b hx)) (Or.inl ?_)
      have := processBit_count_mono fs um PLATFORM st b
      omega
    · have hb := hfail b (List.mem_cons_self b rest)
      by_cases hpb : get_platform_as_programme fs um (pyStrip b) ≠ []
      · refine ih _ (fun x hx => hfail x (List.mem_cons_of_mem b hx))
          (Or.inl ?_)
        rw [processBit_fallback_eq fs um st b hb]
        simp only
        rw [if_pos ⟨hpb, h0⟩]
        omega
      · have hst : processBit fs um PLATFORM st b = st := by
          rw [processBit_fallback_eq fs um st b hb]
          push_neg at hpb
          rw [hpb]
          simp
        rcases List.mem_cons.mp hbw with rfl | hbwr
        · exact absurd hp hpb
        · refine ih _ (fun x hx => hfail x (List.mem_cons_of_mem b hx))
            (Or.inr ⟨by rw [hst]; exact h0, bw, hbwr, hp⟩)

/-- C7 (amended): a PLATFORM candidate that fails direct resolution but
matches a programme or group label contributes the programme's URI (and
its group's, when present) to the platform tag set; the term count is
inflated by 2 only when no term had yet been counted for the facet — in
particular, when no candidate resolves directly and some candidate matches
a programme/group label, the DRS value is forced to `multi-platform` even
though only that programme or group matched. -/
theorem platform_programme_fallback (fs : Facets) (um : Bool) :
    (∀ (st : AttribState) (bit : String),
      get_term_uri fs um PLATFORM (pyStrip bit) = none →
      (∀ t ∈ get_platform_as_programme fs um (pyStrip bit),
        t ∈ (processBit fs um PLATFORM st bit).tagSet) ∧
      (get_platform_as_programme fs um (pyStrip bit) ≠ [] →
        st.termCount = 0 →
        (processBit fs um PLATFORM st bit).termCount = st.termCount + 2)) ∧
    (∀ bits : List String,
      (∀ b ∈ bits, get_term_uri fs um PLATFORM (pyStrip b) = none) →
      (∃ b ∈ bits, get_platform_as_programme fs um (pyStrip b) ≠ []) →
      (collapseMulti PLATFORM
        (processBits fs um PLATFORM ⟨none, ∅, 0⟩ bits)).drsVal =
        some MULTI_PLATFORM) := by
  constructor
  · intro st bit hnone
    rw [processBit_fallback_eq fs um st bit hnone]
    constructor
    · intro t ht
      exact mem_foldl_insert_of_mem _ _ ht
    · intro hp h0
      simp only
      rw [if_pos ⟨hp, h0⟩]
  · intro bits hfail hex
    have hcnt := processBits_fallback_count fs um bits ⟨none, ∅, 0⟩ hfail
      (Or.inr ⟨rfl, hex⟩)
    exact collapseMulti_platform_multi _ (by omega)

/-- C7 witness (amended claim): with a lone programme-label candidate, the
fallback alone sets the count to 2, retains the programme URI, and forces
`multi-platform`. -/
theorem platform_programme_fallback_witness :
    (processBit fsProg true PLATFORM ⟨none, ∅, 0⟩ "PROG").termCount = 2 ∧
    some "uriProg" ∈ (processBit fsProg true PLATFORM ⟨none, ∅, 0⟩ "PROG").tagSet ∧
    (collapseMulti PLATFORM
      (processBits fsProg true PLATFORM ⟨none, ∅, 0⟩ ["PROG"])).drsVal =
      some MULTI_PLATFORM := by
  obtain ⟨h1, h2⟩ := platform_programme_fallback fsProg true
  refine ⟨?_, ?_, ?_⟩
  · exact (h1 ⟨none, ∅, 0⟩ "PROG" (by decide)).2 (by decide) rfl
  · exact (h1 ⟨none, ∅, 0⟩ "PROG" (by decide)).1 (some "uriProg") (by decide)
  · exact h2 ["PROG"] (by decide) ⟨"PROG", by decide, by decide⟩

/-! ## The orchestrator (`ProcessDatasets.process_datasets` /
`_process_dataset`), restricted to its identifier-allocation core

The external collaborators are abstracted as inputs: file enumeration
supplies, per dataset, the file list in directory-walk order; filename
parsing and netCDF attribute scanning supply each file's merged resolved
facet mapping (a pure function of the file's content).  Checksums, the
tags-CSV writing and printing do not influence the identifier results and
are outside this model.  `DRS_Mapping` is modelled as the list of
`(dataset, identifier)` rows in store-file order; its per-dataset Python
*set* of identifiers is iterated in insertion (file) order.  The run-wide
`__drs_messages` set is modelled as an insertion-ordered deduplicated
list, which the end-of-run store write-out sorts. -/

/-- One file: its path and its per-file resolved facet mapping. -/
structure FileInput where
  path : String
  facets : String → Option String

/-- The orchestrator's run-wide mutable state: the identifier table
(`drs`, insertion-ordered), the `ds,identifier` messages for persistence,
the error-message set, and the processing trace (dataset, file) in
execution order. -/
structure RunState where
  drs : List (String × List String)
  drsMessages : List String
  errors : Finset String
  trace : List (String × String)

/-- Insert with Python-set semantics into an insertion-ordered list. -/
def listInsert (x : String) (l : List String) : List String :=
  if x ∈ l then l else l ++ [x]

/-- `DRS_Mapping.get_drs(ds)`: the dataset's identifiers, store order. -/
def storeGetDrs (store : List (String × String)) (ds : String) :
    List String :=
  (store.filter (fun row => row.1 = ds)).map (·.2)

/-- `DRS_Mapping.get_drs()`: all identifiers, store order. -/
def storeAllDrs (store : List (String × String)) : List String :=
  store.map (·.2)

/-- Append a file under its identifier in the run's table; the flag reports
whether a new entry was created (`drs_count` increments). -/
def drsInsert (drs : List (String × List String)) (full fpath : String) :
    List (String × List String) × Bool :=
  if drs.any (fun kv => kv.1 = full) then
    (drs.map (fun kv => if kv.1 = full then (kv.1, kv.2 ++ [fpath]) else kv),
     false)
  else (drs ++ [(full, [fpath])], true)

/-- The body of the per-file loop (tagger.py lines 157–197, checksum
output elided), without the trace bookkeeping: build the identifier stem,
skip the file when it is `none`, otherwise reuse the dataset-local
realization or allocate one, and record the file under the full
identifier. -/
def processFileCore (store : List (String × String)) (ds : String)
    (current : List (String × String)) (dcount : Nat) (st : RunState)
    (f : FileInput) :
    Except PyErr (List (String × String) × Nat × RunState) :=
  match generate_ds_id ds f.facets st.errors with
  | (none, E') => .ok (current, dcount, { st with errors := E' })
  | (some dsid, E') =>
    match current.find? (fun kv => kv.1 = dsid) with
    | some kv =>
      .ok (current,
        (if (drsInsert st.drs (dsid ++ "." ++ kv.2) f.path).2 then dcount + 1
         else dcount),
        { st with
          errors := E',
          drs := (drsInsert st.drs (dsid ++ "." ++ kv.2) f.path).1 })
    | none =>
      match get_next_realization dsid (storeGetDrs store ds)
          (storeAllDrs store) (st.drs.map (·.1)) with
      | .error e => .error e
      | .ok r =>
        .ok (current ++ [(dsid, r)],
          (if (drsInsert st.drs (dsid ++ "." ++ r) f.path).2 then dcount + 1
           else dcount),
          { st with
            errors := E',
            drs := (drsInsert st.drs (dsid ++ "." ++ r) f.path).1,
            drsMessages :=
              listInsert (ds ++ "," ++ (dsid ++ "." ++ r)) st.drsMessages })

/-- The per-file loop body, recording the file in the trace first. -/
def processFile (store : List (String × String)) (ds : String)
    (acc : List (String × String) × Nat × RunState) (f : FileInput) :
    Except PyErr (List (String × String) × Nat × RunState) :=
  processFileCore store ds acc.1 acc.2.1
    { acc.2.2 with trace := acc.2.2.trace ++ [(ds, f.path)] } f

/-- `ProcessDatasets._process_dataset` (identifier core): an empty file
list is only diagnosed; otherwise every file is processed in enumeration
order and a dataset creating no entries is diagnosed. -/
def process_dataset (store : List (String × String)) (ds : String)
    (files : List FileInput) (st : RunState) : Except PyErr RunState :=
  if files.length = 0 then
    .ok { st with
      errors := insert ("WARNING " ++ ds ++ ", no .nc files found") st.errors }
  else
    match files.foldlM (fun acc f => processFile store ds acc f)
        ([], 0, st) with
    | .error e => .error e
    | .ok (_, dcount, st') =>
      .ok (if dcount = 0 then
        { st' with
          errors := insert ("ERROR in " ++ ds ++ ", no DRS entries created")
            st'.errors }
      else st')

/-- Ascending insertion of a dataset (keyed by name) into a sorted list. -/
def insertSortedBy (x : String × List FileInput) :
    List (String × List FileInput) → List (String × List FileInput)
  | [] => [x]
  | a :: rest =>
    if pyLe x.1 a.1 then x :: a :: rest else a :: insertSortedBy x rest

/-- `sorted(datasets)`: the datasets in ascending name order. -/
def sortInputs (l : List (String × List FileInput)) :
    List (String × List FileInput) :=
  l.foldr insertSortedBy []

/-- A store row `'%s,%s' % (ds, identifier)`, parsed back on load (every
row the model writes contains its separating comma). -/
def parseRow (row : String) : String × String :=
  ((pySplit "," row).getD 0 "", (pySplit "," row).getD 1 "")

/-- `DRS_Mapping.output_drs`: merge the run's new `ds,identifier`
messages with the stored rows, and write them sorted — the store the next
run will read. -/
def outputStore (store : List (String × String)) (messages : List String) :
    List (String × String) :=
  (pySorted (store.foldl (fun rows kv => listInsert (kv.1 ++ "," ++ kv.2) rows)
    messages)).map parseRow

/-- `ProcessDatasets.process_datasets` (identifier core): process datasets
in sorted order, then emit the merged, sorted identifier store. -/
def process_datasets (store : List (String × String))
    (inputs : List (String × List FileInput)) :
    Except PyErr (RunState × List (String × String)) :=
  match (sortInputs inputs).foldlM
      (fun st p => process_dataset store p.1 p.2 st)
      ⟨[], [], ∅, []⟩ with
  | .error e => .error e
  | .ok st => .ok (st, outputStore store st.drsMessages)

/-- Two consecutive runs over unchanged inputs: the second run consumes
the store written by the first. -/
def runTwice (store : List (String × String))
    (inputs : List (String × List FileInput)) :
    Except PyErr (RunState × List (String × String)) :=
  match process_datasets store inputs with
  | .error e => .error e
  | .ok (_, store1) => process_datasets store1 inputs

/-! ### Claim C4 -/

/-- A fully resolved facet mapping whose product version is `ver`. -/
def facetsWithVersion (ver : String) : String → Option String := fun f =>
  if f = ECV then some "c"
  else if f = FREQUENCY then some "f"
  else if f = PROCESSING_LEVEL then some "l"
  else if f = DATA_TYPE then some "d"
  else if f = SENSOR then some "s"
  else if f = PLATFORM then some "p"
  else if f = PRODUCT_STRING then some "ps"
  else if f = PRODUCT_VERSION then some ver
  else none

/-- The C4 failing input: one dataset with two files whose stems differ
only by a dash-extension of the final segment (`…v1` and `…v1-x`). -/
def pipelineInputs : List (String × List FileInput) :=
  [("dsA", [⟨"a.nc", facetsWithVersion "v1"⟩,
            ⟨"b.nc", facetsWithVersion "v1-x"⟩])]

/-- Whether a run over the given inputs (from the given store) succeeds. -/
def runOkFrom (store : List (String × String))
    (inputs : List (String × List FileInput)) : Bool :=
  match process_datasets store inputs with
  | .ok _ => true
  | .error _ => false

/-- C4: re-running the pipeline over unchanged inputs is not idempotent:
on the failing input the first run (from an empty store) succeeds and
mints `…v1.r1` and `…v1-x.r1`, but the second run consumes the sorted
store, hits `…v1-x.r1` first while looking up the stem `…v1` (it
`startswith` the stem but does not contain `stem + "."`), and raises
`IndexError` instead of reproducing the first run's output. -/
theorem pipeline_second_run_crash :
    runOkFrom [] pipelineInputs = true ∧
    runTwice [] pipelineInputs = .error .index :=
  ⟨rfl, rfl⟩

/-! ### Claim C8 -/

/-- The expected processing trace: each dataset's files in enumeration
order, datasets in list order. -/
def traceOf : List (String × List FileInput) → List (String × String)
  | [] => []
  | p :: rest => p.2.map (fun f => (p.1, f.path)) ++ traceOf rest

theorem processFileCore_trace (store : List (String × String)) (ds : String)
    (current : List (String × String)) (dcount : Nat) (st : RunState)
    (f : FileInput) :
    ∀ out, processFileCore store ds current dcount st f = .ok out →
      out.2.2.trace = st.trace := by
  intro out h
  unfold processFileCore at h
  split at h
  · cases h
    rfl
  · split at h
    · cases h
      rfl
    · split at h
      · exact Except.noConfusion h
      · cases h
        rfl

theorem processFile_trace (store : List (String × String)) (ds : String)
    (acc : List (String × String) × Nat × RunState) (f : FileInput) :
    ∀ out, processFile store ds acc f = .ok out →
      out.2.2.trace = acc.2.2.trace ++ [(ds, f.path)] := by
  intro out h
  have := processFileCore_trace store ds acc.1 acc.2.1
    { acc.2.2 with trace := acc.2.2.trace ++ [(ds, f.path)] } f out h
  simpa using this

theorem foldFiles_trace (store : List (String × String)) (ds : String) :
    ∀ (files : List FileInput) (acc : List (String × String) × Nat × RunState)
      (out : List (String × String) × Nat × RunState),
      files.foldlM (fun acc f => processFile store ds acc f) acc = .ok out →
      out.2.2.trace = acc.2.2.trace ++ files.map (fun f => (ds, f.path)) := by
  intro files
  induction files with
  | nil =>
    intro acc out h
    injection h with h
    subst h
    simp
  | cons f fs ih =>
    intro acc out h
    simp only [List.foldlM] at h
    cases hf : processFile store ds acc f with
    | error e => rw [hf] at h; simp [Bind.bind, Except.bind] at h
    | ok mid =>
      rw [hf] at h
      simp only [Bind.bind, Except.bind] at h
      have hmid := processFile_trace store ds acc f mid hf
      have hout := ih mid out h
      rw [hout, hmid]
      simp

theorem process_dataset_trace (store : List (String × String)) (ds : String)
    (files : List FileInput) (st : RunState) :
    ∀ out, process_dataset store ds files st = .ok out →
      out.trace = st.trace ++ files.map (fun f => (ds, f.path)) := by
  intro out h
  unfold process_dataset at h
  split at h
  case isTrue hlen =>
    cases h
    have : files = [] := List.eq_nil_of_length_eq_zero (by omega)
    subst this
    simp
  case isFalse hlen =>
    split at h
    · exact Except.noConfusion h
    case h_2 x dcount st' heq =>
      cases h
      have hfold := foldFiles_trace store ds files ([], 0, st) _ heq
      split
      · exact hfold
      · exact hfold

theorem foldDatasets_trace (store : List (String × String)) :
    ∀ (ins : List (String × List FileInput)) (st0 : RunState)
      (out : RunState),
      ins.foldlM (fun st p => process_dataset store p.1 p.2 st) st0 =
        .ok out →
      out.trace = st0.trace ++ traceOf ins := by
  intro ins
  induction ins with
  | nil =>
    intro st0 out h
    injection h with h
    subst h
    simp [traceOf]
  | cons p rest ih =>
    intro st0 out h
    simp only [List.foldlM] at h
    cases hd : process_dataset store p.1 p.2 st0 with
    | error e => rw [hd] at h; simp [Bind.bind, Except.bind] at h
    | ok mid =>
      rw [hd] at h
      simp only [Bind.bind, Except.bind] at h
      have hmid := process_dataset_trace store p.1 p.2 st0 mid hd
      have hout := ih mid out h
      rw [hout, hmid, traceOf]
      simp

/-- C8 (amended): in a successful run the processing trace is exactly the
datasets in ascending (sorted) name order, each processed to completion
before the next begins, and within each dataset the files in their
enumeration (directory-walk) order — the code applies no sort to the file
list. -/
theorem processing_order (store : List (String × String))
    (inputs : List (String × List FileInput)) :
    ∀ out, process_datasets store inputs = .ok out →
      out.1.trace = traceOf (sortInputs inputs) := by
  intro out h
  unfold process_datasets at h
  split at h
  · exact Except.noConfusion h
  case h_2 st heq =>
    cases h
    have := foldDatasets_trace store (sortInputs inputs) ⟨[], [], ∅, []⟩ st heq
    simpa using this

/-- The first run's trace over the given inputs (empty when it fails). -/
def traceOfRun (inputs : List (String × List FileInput)) :
    List (String × String) :=
  match process_datasets [] inputs with
  | .ok out => out.1.trace
  | .error _ => []

/-- The C8 counterexample input: one dataset whose enumeration lists
`p/b.nc` before `p/a.nc`. -/
def unsortedInputs : List (String × List FileInput) :=
  [("ds", [⟨"p/b.nc", fun _ => none⟩, ⟨"p/a.nc", fun _ => none⟩])]

/-- C8 counterexample: within a dataset the files are processed in
enumeration order, which is not sorted order: the trace lists `p/b.nc`
before `p/a.nc`, while sorted order would list `p/a.nc` first. -/
theorem files_walk_order_counterexample :
    traceOfRun unsortedInputs = [("ds", "p/b.nc"), ("ds", "p/a.nc")] ∧
    pySorted ((traceOfRun unsortedInputs).map Prod.snd) ≠
      (traceOfRun unsortedInputs).map Prod.snd :=
  ⟨rfl, by decide⟩

/-- Input for the C8 witness: two datasets given in unsorted order. -/
def twoDatasetInputs : List (String × List FileInput) :=
  [("dsB", [⟨"f2.nc", facetsWithVersion "v1"⟩]),
   ("dsA", [⟨"f1.nc", facetsWithVersion "v1"⟩])]

/-- C8 witness (amended claim): the run processes dataset `dsA` (and all
its files) before `dsB` although the input lists `dsB` first. -/
theorem processing_order_witness :
    ∃ out, process_datasets [] twoDatasetInputs = .ok out ∧
      out.1.trace = traceOf (sortInputs twoDatasetInputs) ∧
      out.1.trace = [("dsA", "f1.nc"), ("dsB", "f2.nc")] := by
  cases hp : process_datasets [] twoDatasetInputs with
  | error e =>
    have h1 : runOkFrom [] twoDatasetInputs = true := rfl
    have h2 : runOkFrom [] twoDatasetInputs = false := by
      unfold runOkFrom
      rw [hp]
    rw [h1] at h2
    exact Bool.noConfusion h2
  | ok out =>
    refine ⟨out, rfl, processing_order [] twoDatasetInputs out hp, ?_⟩
    rw [processing_order [] twoDatasetInputs out hp]
    rfl

end CciTagger
